import Mathlib

/-!
Shallow embedding of the recipe-management API (Django/DRF application):
data model (Recipe, Tag, Ingredient rows owned by users), the query layer
of `app/recipe/views.py` and the serializer layer of
`app/recipe/serializers.py`.  Users are identified by their numeric id,
rows live in an explicit database state `DB`, Django querysets are lists,
and operations that can raise a Python exception return `Option`.
-/

/-- Row of the Tag table: primary key, owning user's id, name. -/
structure Tag where
  id : Nat
  user : Nat
  name : String
deriving DecidableEq, Repr

/-- Row of the Ingredient table: primary key, owning user's id, name. -/
structure Ingredient where
  id : Nat
  user : Nat
  name : String
deriving DecidableEq, Repr

/-- Row of the Recipe table, with its many-to-many association lists
(`tags`, `ingredient`) holding the ids of related Tag/Ingredient rows,
as `instance.tags` / `instance.ingredient` do in the Django model. -/
structure Recipe where
  id : Nat
  user : Nat
  title : String
  time_minutes : Nat
  price : Int
  link : String
  description : String
  image : Option String
  tags : List Nat
  ingredient : List Nat
deriving DecidableEq, Repr

/-- The persistent store: the three tables plus a fresh-id counter used
when a row is inserted. -/
structure DB where
  recipes : List Recipe
  tags : List Tag
  ingredients : List Ingredient
  nextId : Nat
deriving DecidableEq, Repr

/-! ### Python `int(...)` on a string

`RecipeViewSet._params_to_ints` is the comprehension
`[int(str_id) for str_id in qs.split(',')]`.  Python's `str.split(',')`
and `int(...)` are modelled on the character list of the string:
`int` accepts optional surrounding whitespace, an optional sign and
decimal digits possibly separated by single underscores, and raises
`ValueError` otherwise; a raise is modelled as `none`. -/

/-- Python `qs.split(',')` on the characters of the string; the split of
the empty string is `[""]`. -/
def splitOnComma : List Char → List (List Char)
  | [] => [[]]
  | c :: rest =>
      if c = ',' then [] :: splitOnComma rest
      else
        match splitOnComma rest with
        | [] => [[c]]
        | p :: ps => (c :: p) :: ps

/-- Strip of leading and trailing whitespace, as `int(...)` does before
parsing. -/
def trimChars (cs : List Char) : List Char :=
  (((cs.dropWhile Char.isWhitespace).reverse).dropWhile Char.isWhitespace).reverse

/-- Digits of a decimal literal after the first digit: decimal digits with
single underscores allowed between digits. -/
def pyDigits : Nat → List Char → Option Nat
  | acc, [] => some acc
  | acc, '_' :: c :: cs =>
      if c.isDigit then pyDigits (acc * 10 + (c.toNat - 48)) cs else none
  | acc, c :: cs =>
      if c.isDigit then pyDigits (acc * 10 + (c.toNat - 48)) cs else none

/-- Unsigned decimal literal body: nonempty, starting with a digit. -/
def pyIntCore (cs : List Char) : Option Nat :=
  match cs with
  | [] => none
  | c :: rest => if c.isDigit then pyDigits (c.toNat - 48) rest else none

/-- Python `int(...)` on the characters of a string: `none` models a
raised `ValueError`. -/
def pythonIntChars (cs : List Char) : Option Int :=
  match trimChars cs with
  | '+' :: rest => (pyIntCore rest).map Int.ofNat
  | '-' :: rest => (pyIntCore rest).map (fun n => -(Int.ofNat n))
  | rest => (pyIntCore rest).map Int.ofNat

/-- Python `int(s)` for a string `s`. -/
def pythonInt (s : String) : Option Int :=
  pythonIntChars s.data

/-- The list comprehension `[int(str_id) for str_id in ...]`: convert
each piece in order, propagating the first raise. -/
def mapPythonInt : List (List Char) → Option (List Int)
  | [] => some []
  | p :: ps =>
      match pythonIntChars p, mapPythonInt ps with
      | some v, some vs => some (v :: vs)
      | _, _ => none

/-- Embedding of `RecipeViewSet._params_to_ints`: split on commas and convert every
piece with `int(...)`; any failing piece raises, i.e. yields `none`. -/
def _params_to_ints (qs : String) : Option (List Int) :=
  mapPythonInt (splitOnComma qs.data)

/-- Lexicographic comparison of character lists: the SQL ordering used by
`order_by('-name')`. -/
def charListLe : List Char → List Char → Bool
  | [], _ => true
  | _ :: _, [] => false
  | a :: as, b :: bs => if a = b then charListLe as bs else decide (a < b)

/-- Lexicographic string comparison for `order_by('-name')`. -/
def strLe (a b : String) : Bool :=
  charListLe a.data b.data

/-- Python truthiness of an optional query parameter (`if tags:`):
a missing parameter and the empty string are falsy. -/
def truthy : Option String → Bool
  | none => false
  | some s => !s.isEmpty

/-- Embedding of `queryset.filter(tags__id__in=ids)`: the SQL join yields one row per
(recipe, matching related tag) pair, so a recipe is repeated once per
matching tag id. -/
def filterTagsIdIn (qs : List Recipe) (ids : List Int) : List Recipe :=
  qs.flatMap (fun r => (r.tags.filter (fun t => decide (Int.ofNat t ∈ ids))).map (fun _ => r))

/-- Embedding of `queryset.filter(ingredient__id__in=ids)`: join multiplicity as above. -/
def filterIngredientIdIn (qs : List Recipe) (ids : List Int) : List Recipe :=
  qs.flatMap (fun r => (r.ingredient.filter (fun i => decide (Int.ofNat i ∈ ids))).map (fun _ => r))

/-- Embedding of the `.filter(user=u).order_by('-id').distinct()` tail of
`RecipeViewSet.get_queryset`. -/
def recipeScope (qs : List Recipe) (u : Nat) : List Recipe :=
  (((qs.filter (fun r => r.user == u)).insertionSort (fun a b => b.id ≤ a.id))).dedup

/-- Embedding of `RecipeViewSet.get_queryset`: read the `tags` and `ingredient` query
parameters, apply the id filters when the parameter is truthy, then scope
to the requesting user, order by descending id and deduplicate.  `none`
models an uncaught exception from `_params_to_ints`. -/
def recipe_get_queryset (db : DB) (u : Nat)
    (tagsParam ingredientParam : Option String) : Option (List Recipe) := do
  let qs0 := db.recipes
  let qs1 ←
    if truthy tagsParam then do
      let tagsIds ← _params_to_ints (tagsParam.getD "")
      pure (filterTagsIdIn qs0 tagsIds)
    else pure qs0
  let qs2 ←
    if truthy ingredientParam then do
      let ingredientIds ← _params_to_ints (ingredientParam.getD "")
      pure (filterIngredientIdIn qs1 ingredientIds)
    else pure qs1
  pure (recipeScope qs2 u)

/-- Embedding of `BaseRecipeAttrViewSet.get_queryset` as inherited by `TagViewSet`:
filter to the requesting user and order by descending name.  The
`assigned_only` query parameter is accepted by the API but never read by
the code. -/
def tag_get_queryset (db : DB) (u : Nat) (assigned_only : Option String) : List Tag :=
  (db.tags.filter (fun t => t.user == u)).insertionSort (fun a b => strLe b.name a.name = true)

/-- Embedding of `BaseRecipeAttrViewSet.get_queryset` as inherited by
`IngredientViewSet`; the `assigned_only` query parameter is never read. -/
def ingredient_get_queryset (db : DB) (u : Nat) (assigned_only : Option String) :
    List Ingredient :=
  (db.ingredients.filter (fun i => i.user == u)).insertionSort
    (fun a b => strLe b.name a.name = true)

/-- DRF `get_object` for recipe detail routes: look the pk up inside
`get_queryset` (detail requests carry no filter parameters); `none` is
rendered as HTTP 404. -/
def recipe_get_object (db : DB) (u : Nat) (pk : Nat) : Option Recipe :=
  (recipe_get_queryset db u none none).bind (fun qs => qs.find? (fun r => r.id == pk))

/-- DRF `get_object` for tag detail routes. -/
def tag_get_object (db : DB) (u : Nat) (pk : Nat) : Option Tag :=
  (tag_get_queryset db u none).find? (fun t => t.id == pk)

/-- DRF `get_object` for ingredient detail routes. -/
def ingredient_get_object (db : DB) (u : Nat) (pk : Nat) : Option Ingredient :=
  (ingredient_get_queryset db u none).find? (fun i => i.id == pk)

/-- Retrieve endpoint: `none` is HTTP 404. -/
def recipe_retrieve (db : DB) (u : Nat) (pk : Nat) : Option Recipe :=
  recipe_get_object db u pk

/-- Destroy endpoint: delete the row found by `get_object`; `none` is
HTTP 404 and leaves the store untouched. -/
def recipe_destroy (db : DB) (u : Nat) (pk : Nat) : Option DB :=
  (recipe_get_object db u pk).map (fun _ =>
    { db with recipes := db.recipes.filter (fun r => !(r.id == pk)) })

/-- Destroy endpoint for tags. -/
def tag_destroy (db : DB) (u : Nat) (pk : Nat) : Option DB :=
  (tag_get_object db u pk).map (fun _ =>
    { db with tags := db.tags.filter (fun t => !(t.id == pk)) })

/-- Destroy endpoint for ingredients. -/
def ingredient_destroy (db : DB) (u : Nat) (pk : Nat) : Option DB :=
  (ingredient_get_object db u pk).map (fun _ =>
    { db with ingredients := db.ingredients.filter (fun i => !(i.id == pk)) })

/-- HTTP outcome of the recipe list endpoint: DRF turns an uncaught
`ValueError` from `_params_to_ints` into a 500 server error, while a
`ValidationError` would become a structured 400 response. -/
inductive ListResp where
  | ok (body : List Recipe)
  | badRequest (detail : String)
  | serverError
deriving DecidableEq, Repr

/-- The recipe list endpoint seen at the HTTP layer. -/
def recipe_list_endpoint (db : DB) (u : Nat)
    (tagsParam ingredientParam : Option String) : ListResp :=
  match recipe_get_queryset db u tagsParam ingredientParam with
  | some l => ListResp.ok l
  | none => ListResp.serverError

/-! ### Serializer layer (`app/recipe/serializers.py`) -/

/-- Embedding of `Tag.objects.get_or_create(user=auth_user, name=...)`: Django's
`get_or_create` fetches the unique matching row, creates one when none
matches, and raises `MultipleObjectsReturned` (modelled `none`) when more
than one row matches. -/
def Tag_get_or_create (db : DB) (u : Nat) (n : String) : Option (DB × Tag) :=
  match db.tags.filter (fun t => t.user == u && t.name == n) with
  | [] =>
      let t : Tag := ⟨db.nextId, u, n⟩
      some ({ db with tags := db.tags ++ [t], nextId := db.nextId + 1 }, t)
  | [t] => some (db, t)
  | _ => none

/-- Embedding of `Ingredient.objects.get_or_create(user=auth_user, name=...)`. -/
def Ingredient_get_or_create (db : DB) (u : Nat) (n : String) : Option (DB × Ingredient) :=
  match db.ingredients.filter (fun i => i.user == u && i.name == n) with
  | [] =>
      let i : Ingredient := ⟨db.nextId, u, n⟩
      some ({ db with ingredients := db.ingredients ++ [i], nextId := db.nextId + 1 }, i)
  | [i] => some (db, i)
  | _ => none

/-- Embedding of `recipe.tags.add(tag_obj)`: insert into the join table unless the
pair is already present. -/
def m2mAddTag (db : DB) (recipeId tagId : Nat) : DB :=
  { db with recipes := db.recipes.map (fun r =>
      if r.id == recipeId then
        if tagId ∈ r.tags then r else { r with tags := r.tags ++ [tagId] }
      else r) }

/-- Embedding of `recipe.ingredient.add(ingredient_obj)`. -/
def m2mAddIngredient (db : DB) (recipeId ingredientId : Nat) : DB :=
  { db with recipes := db.recipes.map (fun r =>
      if r.id == recipeId then
        if ingredientId ∈ r.ingredient then r
        else { r with ingredient := r.ingredient ++ [ingredientId] }
      else r) }

/-- Embedding of `instance.tags.clear()`. -/
def m2mClearTags (db : DB) (recipeId : Nat) : DB :=
  { db with recipes := db.recipes.map (fun r =>
      if r.id == recipeId then { r with tags := [] } else r) }

/-- Embedding of `instance.ingredient.clear()`. -/
def m2mClearIngredient (db : DB) (recipeId : Nat) : DB :=
  { db with recipes := db.recipes.map (fun r =>
      if r.id == recipeId then { r with ingredient := [] } else r) }

/-- Body of the loop in `RecipeSerializer._get_or_create_tags` for one
embedded tag payload `{'name': n}`: get-or-create, then associate. -/
def get_or_create_tag_step (db : DB) (u : Nat) (n : String) (recipeId : Nat) : Option DB :=
  (Tag_get_or_create db u n).map (fun p => m2mAddTag p.1 recipeId p.2.id)

/-- Body of the loop in `RecipeSerializer._get_or_create_ingredient`. -/
def get_or_create_ingredient_step (db : DB) (u : Nat) (n : String) (recipeId : Nat) :
    Option DB :=
  (Ingredient_get_or_create db u n).map (fun p => m2mAddIngredient p.1 recipeId p.2.id)

/-- Embedding of `RecipeSerializer._get_or_create_tags(tags, recipe)`: the loop over
the embedded tag payloads (each validated to its `name`). -/
def _get_or_create_tags (db : DB) (u : Nat) (names : List String) (recipeId : Nat) :
    Option DB :=
  match names with
  | [] => some db
  | n :: rest =>
      (get_or_create_tag_step db u n recipeId).bind
        (fun db2 => _get_or_create_tags db2 u rest recipeId)

/-- Embedding of `RecipeSerializer._get_or_create_ingredient(ingredients, recipe)`. -/
def _get_or_create_ingredient (db : DB) (u : Nat) (names : List String) (recipeId : Nat) :
    Option DB :=
  match names with
  | [] => some db
  | n :: rest =>
      (get_or_create_ingredient_step db u n recipeId).bind
        (fun db2 => _get_or_create_ingredient db2 u rest recipeId)

/-- Validated data of a recipe write request: `none` in a field means the
key is absent from `validated_data`.  Nested `tags` / `ingredient` lists
are validated by the nested serializers down to the tag/ingredient names
(`id` is read-only there). -/
structure RecipeValidatedData where
  title : Option String
  time_minutes : Option Nat
  price : Option Int
  link : Option String
  description : Option String
  image : Option String
  tags : Option (List String)
  ingredient : Option (List String)
  user : Option Nat
deriving DecidableEq, Repr

/-- The validated-data record with every key absent. -/
def emptyValidatedData : RecipeValidatedData :=
  ⟨none, none, none, none, none, none, none, none, none⟩

/-- The `Meta.fields` list of `RecipeDetailsSerializer` (the write serializer):
`RecipeSerializer.Meta.fields + ['description', 'image']`. -/
def RecipeDetails_fields : List String :=
  ["id", "title", "time_minutes", "price", "link", "tags", "ingredient",
   "description", "image"]

/-- The `Meta.read_only_fields` list of `RecipeSerializer`. -/
def Recipe_read_only_fields : List String := ["id"]

/-- A payload key is writable when it is declared in `Meta.fields` and
not read-only; DRF drops every other payload key when building
`validated_data`. -/
def writableField (f : String) : Bool :=
  RecipeDetails_fields.contains f && !(Recipe_read_only_fields.contains f)

/-- Raw JSON payload of a recipe update request, as a record of the keys
a client might send (including `user`); `none` means the key is absent. -/
structure RecipeRawPayload where
  title : Option String
  time_minutes : Option Nat
  price : Option Int
  link : Option String
  description : Option String
  image : Option String
  tags : Option (List String)
  ingredient : Option (List String)
  user : Option Nat
deriving DecidableEq, Repr

/-- DRF `to_internal_value` for a partial update: keep exactly the
payload keys that are writable serializer fields. -/
def to_internal_value (p : RecipeRawPayload) : RecipeValidatedData where
  title := if writableField "title" then p.title else none
  time_minutes := if writableField "time_minutes" then p.time_minutes else none
  price := if writableField "price" then p.price else none
  link := if writableField "link" then p.link else none
  description := if writableField "description" then p.description else none
  image := if writableField "image" then p.image else none
  tags := if writableField "tags" then p.tags else none
  ingredient := if writableField "ingredient" then p.ingredient else none
  user := if writableField "user" then p.user else none

/-- The `for attr, value in validated_data.items(): setattr(instance,
attr, value)` loop followed by `instance.save()`: every key remaining in
`validated_data` (after `tags` and `ingredient` were popped) overwrites
the instance field of the same name. -/
def applySetattr (r : Recipe) (vd : RecipeValidatedData) : Recipe :=
  { r with
    title := vd.title.getD r.title
    time_minutes := vd.time_minutes.getD r.time_minutes
    price := vd.price.getD r.price
    link := vd.link.getD r.link
    description := vd.description.getD r.description
    image := match vd.image with
      | some v => some v
      | none => r.image
    user := vd.user.getD r.user }

/-- Embedding of `RecipeSerializer.update(instance, validated_data)`.  Note the source
pops `tags` and `ingredient` with default `[]`, so the following
`if tags is not None:` guard compares a list against `None` and is always
true: the clear-and-reassociate branch runs even when the key was absent
from the payload. -/
def RecipeSerializer_update (db : DB) (recipeId u : Nat) (vd : RecipeValidatedData) :
    Option DB := do
  let tags := vd.tags.getD []
  let ingredient := vd.ingredient.getD []
  let db1 := m2mClearTags db recipeId
  let db2 ← _get_or_create_tags db1 u tags recipeId
  let db3 := m2mClearIngredient db2 recipeId
  let db4 ← _get_or_create_ingredient db3 u ingredient recipeId
  pure { db4 with recipes := db4.recipes.map (fun r =>
    if r.id == recipeId then applySetattr r vd else r) }

/-- Scalar fields of a recipe create request (`perform_create` passes
`user=self.request.user` into `serializer.save`). -/
structure RecipeCreateData where
  title : String
  time_minutes : Nat
  price : Int
  link : String
  description : String
  tags : Option (List String)
  ingredient : Option (List String)
deriving DecidableEq, Repr

/-- Embedding of `RecipeSerializer.create(validated_data)`: pop `tags` and
`ingredient` (default `[]`), insert the recipe row, then get-or-create
and associate each embedded tag and ingredient.  Returns the new recipe's
id alongside the new store. -/
def RecipeSerializer_create (db : DB) (u : Nat) (vd : RecipeCreateData) :
    Option (DB × Nat) := do
  let tags := vd.tags.getD []
  let ingredient := vd.ingredient.getD []
  let rid := db.nextId
  let r : Recipe :=
    ⟨rid, u, vd.title, vd.time_minutes, vd.price, vd.link, vd.description, none, [], []⟩
  let db1 : DB := { db with recipes := db.recipes ++ [r], nextId := db.nextId + 1 }
  let db2 ← _get_or_create_tags db1 u tags rid
  let db3 ← _get_or_create_ingredient db2 u ingredient rid
  pure (db3, rid)

/-- The update endpoint for recipes: look up the object in the caller's
queryset (404 when absent), then run the serializer update. -/
def recipe_update_endpoint (db : DB) (u : Nat) (pk : Nat) (vd : RecipeValidatedData) :
    Option DB :=
  (recipe_get_object db u pk).bind (fun r => RecipeSerializer_update db r.id u vd)

/-- Modelled from the spec: the persistent-storage transaction boundary.
The repository's storage configuration (Django settings, database setup)
is not under `src/`; per the spec, each HTTP request is handled
"atomically against persistent storage" and "a create/update that touches
multiple related rows (recipe + tags + ingredients) must be atomic —
either all writes commit or none do".  `run_in_transaction` keeps the
writes of `op` only when every write succeeds, and rolls back to the
initial store when any write raises. -/
def run_in_transaction {α : Type} (db : DB) (op : DB → Option (DB × α)) :
    DB × Option α :=
  match op db with
  | some (db2, a) => (db2, some a)
  | none => (db, none)

/-! ### Image upload (`RecipeImageSeriaizer`, `RecipeViewSet.upload_image`) -/

/-- The setting `Meta.extra_kwargs = {'image': {'required': False}}` on
`RecipeImageSeriaizer`. -/
def image_field_required : Bool := false

/-- Payload of an upload-image POST: `none` means the `image` key is
absent. -/
structure ImagePayload where
  image : Option String
deriving DecidableEq, Repr

/-- Embedding of `serializer.is_valid()` for `RecipeImageSeriaizer`: its only writable
field is `image`, which only fails validation when required but absent. -/
def RecipeImageSeriaizer_is_valid (p : ImagePayload) : Bool :=
  p.image.isSome || !image_field_required

/-- Responses of the `upload_image` action. -/
inductive UploadResp where
  | ok (id : Nat) (image : Option String)
  | badRequest (errors : List String)
  | notFound
deriving DecidableEq, Repr

/-- Embedding of `RecipeViewSet.upload_image`: `get_object`, validate, save, and
answer 200 with the serializer data `{'id': ..., 'image': ...}`; an
invalid payload answers 400 with the field errors. -/
def upload_image (db : DB) (u : Nat) (pk : Nat) (p : ImagePayload) : UploadResp × DB :=
  match recipe_get_object db u pk with
  | none => (UploadResp.notFound, db)
  | some r =>
      if RecipeImageSeriaizer_is_valid p then
        let img := match p.image with
          | some v => some v
          | none => r.image
        let db2 : DB := { db with recipes := db.recipes.map (fun x =>
          if x.id == pk then { x with image := img } else x) }
        (UploadResp.ok r.id img, db2)
      else
        (UploadResp.badRequest ["This field is required."], db)

/-! ### Lemmas about the query layer -/

/-- Membership in the scoped, ordered, deduplicated recipe queryset. -/
theorem mem_recipeScope {qs : List Recipe} {u : Nat} {r : Recipe} :
    r ∈ recipeScope qs u ↔ r ∈ qs ∧ r.user = u := by
  unfold recipeScope
  rw [List.mem_dedup, (List.perm_insertionSort _ _).mem_iff, List.mem_filter,
    beq_iff_eq]

/-- The scoped recipe queryset has no duplicate rows. -/
theorem nodup_recipeScope (qs : List Recipe) (u : Nat) : (recipeScope qs u).Nodup :=
  List.nodup_dedup _

/-- Membership after the `tags__id__in` join filter. -/
theorem mem_filterTagsIdIn {qs : List Recipe} {ids : List Int} {r : Recipe} :
    r ∈ filterTagsIdIn qs ids ↔ r ∈ qs ∧ ∃ t : Nat, t ∈ r.tags ∧ Int.ofNat t ∈ ids := by
  unfold filterTagsIdIn
  rw [List.mem_flatMap]
  constructor
  · rintro ⟨b, hb, hr⟩
    rw [List.mem_map] at hr
    obtain ⟨t, ht, rfl⟩ := hr
    rw [List.mem_filter] at ht
    exact ⟨hb, t, ht.1, of_decide_eq_true ht.2⟩
  · rintro ⟨hr, t, ht, hid⟩
    refine ⟨r, hr, ?_⟩
    rw [List.mem_map]
    exact ⟨t, List.mem_filter.mpr ⟨ht, decide_eq_true hid⟩, rfl⟩

/-- Membership after the `ingredient__id__in` join filter. -/
theorem mem_filterIngredientIdIn {qs : List Recipe} {ids : List Int} {r : Recipe} :
    r ∈ filterIngredientIdIn qs ids ↔
      r ∈ qs ∧ ∃ i : Nat, i ∈ r.ingredient ∧ Int.ofNat i ∈ ids := by
  unfold filterIngredientIdIn
  rw [List.mem_flatMap]
  constructor
  · rintro ⟨b, hb, hr⟩
    rw [List.mem_map] at hr
    obtain ⟨t, ht, rfl⟩ := hr
    rw [List.mem_filter] at ht
    exact ⟨hb, t, ht.1, of_decide_eq_true ht.2⟩
  · rintro ⟨hr, t, ht, hid⟩
    refine ⟨r, hr, ?_⟩
    rw [List.mem_map]
    exact ⟨t, List.mem_filter.mpr ⟨ht, decide_eq_true hid⟩, rfl⟩

/-- With no filter parameters the recipe queryset is the caller's scoped
table. -/
theorem recipe_get_queryset_no_params (db : DB) (u : Nat) :
    recipe_get_queryset db u none none = some (recipeScope db.recipes u) := rfl

/-- Every successful recipe queryset is a scoped queryset. -/
theorem recipe_get_queryset_shape {db : DB} {u : Nat} {tp ip : Option String}
    {l : List Recipe} (h : recipe_get_queryset db u tp ip = some l) :
    ∃ qs, l = recipeScope qs u := by
  unfold recipe_get_queryset at h
  cases htp : truthy tp <;> rw [htp] at h <;> cases hip : truthy ip <;> rw [hip] at h
  · exact ⟨db.recipes, by simpa using h.symm⟩
  · simp only [Option.bind_eq_bind, Option.pure_def, Option.bind_some] at h
    cases hi : _params_to_ints (ip.getD "") <;> rw [hi] at h <;> simp at h
    exact ⟨_, h.symm⟩
  · simp only [Option.bind_eq_bind, Option.pure_def, Option.bind_some] at h
    cases ht : _params_to_ints (tp.getD "") <;> rw [ht] at h <;> simp at h
    exact ⟨_, h.symm⟩
  · simp only [Option.bind_eq_bind, Option.pure_def, Option.bind_some] at h
    cases ht : _params_to_ints (tp.getD "") <;> rw [ht] at h <;> simp at h
    cases hi : _params_to_ints (ip.getD "") <;> rw [hi] at h <;> simp at h
    exact ⟨_, h.symm⟩

/-- Every row of a successful recipe list response belongs to the
requesting user. -/
theorem recipe_list_user {db : DB} {u : Nat} {tp ip : Option String}
    {l : List Recipe} (h : recipe_get_queryset db u tp ip = some l) :
    ∀ x ∈ l, x.user = u := by
  obtain ⟨qs, rfl⟩ := recipe_get_queryset_shape h
  intro x hx
  exact (mem_recipeScope.mp hx).2

/-- Membership in the tag list queryset. -/
theorem mem_tag_get_queryset {db : DB} {u : Nat} {p : Option String} {t : Tag} :
    t ∈ tag_get_queryset db u p ↔ t ∈ db.tags ∧ t.user = u := by
  unfold tag_get_queryset
  rw [(List.perm_insertionSort _ _).mem_iff, List.mem_filter, beq_iff_eq]

/-- Membership in the ingredient list queryset. -/
theorem mem_ingredient_get_queryset {db : DB} {u : Nat} {p : Option String}
    {i : Ingredient} :
    i ∈ ingredient_get_queryset db u p ↔ i ∈ db.ingredients ∧ i.user = u := by
  unfold ingredient_get_queryset
  rw [(List.perm_insertionSort _ _).mem_iff, List.mem_filter, beq_iff_eq]

/-- The function `find?` finds the unique element satisfying the predicate. -/
theorem find?_eq_some_of_unique {α : Type} {p : α → Bool} {l : List α} {a : α}
    (ha : a ∈ l) (hpa : p a = true) (huniq : ∀ x ∈ l, p x = true → x = a) :
    l.find? p = some a := by
  induction l with
  | nil => cases ha
  | cons b t ih =>
      by_cases hb : p b = true
      · rw [List.find?_cons_of_pos _ hb, huniq b (List.mem_cons_self b t) hb]
      · rw [List.find?_cons_of_neg _ hb]
        rcases List.mem_cons.mp ha with rfl | hat
        · exact absurd hpa hb
        · exact ih hat (fun x hx hpx => huniq x (List.mem_cons_of_mem _ hx) hpx)

/-- A piece that `int(...)` rejects makes the whole comprehension raise. -/
theorem mapPythonInt_eq_none_of_mem {ps : List (List Char)} {piece : List Char}
    (hm : piece ∈ ps) (hbad : pythonIntChars piece = none) :
    mapPythonInt ps = none := by
  induction ps with
  | nil => cases hm
  | cons q t ih =>
      unfold mapPythonInt
      rcases List.mem_cons.mp hm with rfl | hqt
      · rw [hbad]
      · rw [ih hqt]
        cases pythonIntChars q <;> rfl

/-! ### Lemmas about the serializer write path -/

/-- The scalar (non-association) fields shared by two recipe rows. -/
def scalarEq (r r2 : Recipe) : Prop :=
  r2.id = r.id ∧ r2.user = r.user ∧ r2.title = r.title ∧
  r2.time_minutes = r.time_minutes ∧ r2.price = r.price ∧ r2.link = r.link ∧
  r2.description = r.description ∧ r2.image = r.image

theorem scalarEq_refl (r : Recipe) : scalarEq r r :=
  ⟨rfl, rfl, rfl, rfl, rfl, rfl, rfl, rfl⟩

theorem scalarEq_trans {a b c : Recipe} (h1 : scalarEq a b) (h2 : scalarEq b c) :
    scalarEq a c := by
  obtain ⟨e1, e2, e3, e4, e5, e6, e7, e8⟩ := h1
  obtain ⟨f1, f2, f3, f4, f5, f6, f7, f8⟩ := h2
  exact ⟨f1.trans e1, f2.trans e2, f3.trans e3, f4.trans e4, f5.trans e5,
    f6.trans e6, f7.trans e7, f8.trans e8⟩

/-- What a successful `Tag.objects.get_or_create` guarantees: the
returned row carries the requested owner and name and is in the store,
recipes and ingredients are untouched, and no tag row is removed. -/
theorem Tag_get_or_create_some {db db2 : DB} {u : Nat} {n : String} {t : Tag}
    (h : Tag_get_or_create db u n = some (db2, t)) :
    t.user = u ∧ t.name = n ∧ t ∈ db2.tags ∧ db2.recipes = db.recipes ∧
      db2.ingredients = db.ingredients ∧ ∀ x ∈ db.tags, x ∈ db2.tags := by
  unfold Tag_get_or_create at h
  rcases hf : db.tags.filter (fun x => x.user == u && x.name == n) with _ | ⟨t0, _ | ⟨t1, rest⟩⟩ <;>
    rw [hf] at h
  · rw [Option.some.injEq, Prod.mk.injEq] at h
    obtain ⟨h1, h2⟩ := h
    subst h1
    subst h2
    refine ⟨rfl, rfl, ?_, rfl, rfl, ?_⟩
    · simp
    · intro x hx
      simp [hx]
  · rw [Option.some.injEq, Prod.mk.injEq] at h
    obtain ⟨h1, h2⟩ := h
    subst h1
    subst h2
    have ht0 : t0 ∈ db.tags.filter (fun x => x.user == u && x.name == n) := by
      rw [hf]
      exact List.mem_singleton.mpr rfl
    rw [List.mem_filter, Bool.and_eq_true, beq_iff_eq, beq_iff_eq] at ht0
    exact ⟨ht0.2.1, ht0.2.2, ht0.1, rfl, rfl, fun x hx => hx⟩
  · cases h

/-- Mirror of `Tag_get_or_create_some` for ingredients. -/
theorem Ingredient_get_or_create_some {db db2 : DB} {u : Nat} {n : String}
    {i : Ingredient}
    (h : Ingredient_get_or_create db u n = some (db2, i)) :
    i.user = u ∧ i.name = n ∧ i ∈ db2.ingredients ∧ db2.recipes = db.recipes ∧
      db2.tags = db.tags ∧ ∀ x ∈ db.ingredients, x ∈ db2.ingredients := by
  unfold Ingredient_get_or_create at h
  rcases hf : db.ingredients.filter (fun x => x.user == u && x.name == n) with _ | ⟨t0, _ | ⟨t1, rest⟩⟩ <;>
    rw [hf] at h
  · rw [Option.some.injEq, Prod.mk.injEq] at h
    obtain ⟨h1, h2⟩ := h
    subst h1
    subst h2
    refine ⟨rfl, rfl, ?_, rfl, rfl, ?_⟩
    · simp
    · intro x hx
      simp [hx]
  · rw [Option.some.injEq, Prod.mk.injEq] at h
    obtain ⟨h1, h2⟩ := h
    subst h1
    subst h2
    have ht0 : t0 ∈ db.ingredients.filter (fun x => x.user == u && x.name == n) := by
      rw [hf]
      exact List.mem_singleton.mpr rfl
    rw [List.mem_filter, Bool.and_eq_true, beq_iff_eq, beq_iff_eq] at ht0
    exact ⟨ht0.2.1, ht0.2.2, ht0.1, rfl, rfl, fun x hx => hx⟩
  · cases h

/-- The per-row transformation applied by `m2mAddTag`. -/
def addTagFun (recipeId tagId : Nat) (r : Recipe) : Recipe :=
  if r.id == recipeId then
    if tagId ∈ r.tags then r else { r with tags := r.tags ++ [tagId] }
  else r

theorem m2mAddTag_recipes (db : DB) (recipeId tagId : Nat) :
    (m2mAddTag db recipeId tagId).recipes = db.recipes.map (addTagFun recipeId tagId) := rfl

theorem addTagFun_shape (recipeId tagId : Nat) (r : Recipe) :
    scalarEq r (addTagFun recipeId tagId r) ∧
      (addTagFun recipeId tagId r).ingredient = r.ingredient ∧
      ∀ x ∈ r.tags, x ∈ (addTagFun recipeId tagId r).tags := by
  unfold addTagFun
  split
  · split
    · exact ⟨scalarEq_refl r, rfl, fun x hx => hx⟩
    · exact ⟨⟨rfl, rfl, rfl, rfl, rfl, rfl, rfl, rfl⟩, rfl,
        fun x hx => List.mem_append_left _ hx⟩
  · exact ⟨scalarEq_refl r, rfl, fun x hx => hx⟩

theorem addTagFun_assoc (recipeId tagId : Nat) (r : Recipe) (h : r.id = recipeId) :
    tagId ∈ (addTagFun recipeId tagId r).tags := by
  unfold addTagFun
  rw [if_pos (beq_iff_eq.mpr h)]
  split
  · assumption
  · exact List.mem_append_right _ (List.mem_singleton.mpr rfl)

/-- The per-row transformation applied by `m2mAddIngredient`. -/
def addIngredientFun (recipeId ingredientId : Nat) (r : Recipe) : Recipe :=
  if r.id == recipeId then
    if ingredientId ∈ r.ingredient then r
    else { r with ingredient := r.ingredient ++ [ingredientId] }
  else r

theorem m2mAddIngredient_recipes (db : DB) (recipeId ingredientId : Nat) :
    (m2mAddIngredient db recipeId ingredientId).recipes =
      db.recipes.map (addIngredientFun recipeId ingredientId) := rfl

theorem addIngredientFun_shape (recipeId ingredientId : Nat) (r : Recipe) :
    scalarEq r (addIngredientFun recipeId ingredientId r) ∧
      (addIngredientFun recipeId ingredientId r).tags = r.tags ∧
      ∀ x ∈ r.ingredient, x ∈ (addIngredientFun recipeId ingredientId r).ingredient := by
  unfold addIngredientFun
  split
  · split
    · exact ⟨scalarEq_refl r, rfl, fun x hx => hx⟩
    · exact ⟨⟨rfl, rfl, rfl, rfl, rfl, rfl, rfl, rfl⟩, rfl,
        fun x hx => List.mem_append_left _ hx⟩
  · exact ⟨scalarEq_refl r, rfl, fun x hx => hx⟩

theorem addIngredientFun_assoc (recipeId ingredientId : Nat) (r : Recipe)
    (h : r.id = recipeId) :
    ingredientId ∈ (addIngredientFun recipeId ingredientId r).ingredient := by
  unfold addIngredientFun
  rw [if_pos (beq_iff_eq.mpr h)]
  split
  · assumption
  · exact List.mem_append_right _ (List.mem_singleton.mpr rfl)

/-- State shape after the `_get_or_create_tags` loop: tag rows are only
added, ingredient rows are untouched, and every recipe row is transformed
by a function that preserves its scalar fields and its ingredient
associations and only adds tag associations. -/
theorem goc_tags_shape {u rid : Nat} :
    ∀ {names : List String} {db db2 : DB},
    _get_or_create_tags db u names rid = some db2 →
    (∀ x ∈ db.tags, x ∈ db2.tags) ∧ db2.ingredients = db.ingredients ∧
      ∃ g : Recipe → Recipe, db2.recipes = db.recipes.map g ∧
        ∀ r, scalarEq r (g r) ∧ (g r).ingredient = r.ingredient ∧
          ∀ x ∈ r.tags, x ∈ (g r).tags := by
  intro names
  induction names with
  | nil =>
      intro db db2 h
      obtain rfl := Option.some.inj h
      refine ⟨fun x hx => hx, rfl, id, (List.map_id _).symm, ?_⟩
      exact fun r => ⟨scalarEq_refl r, rfl, fun x hx => hx⟩
  | cons n rest ih =>
      intro db db2 h
      unfold _get_or_create_tags at h
      cases hs : get_or_create_tag_step db u n rid with
      | none => rw [hs] at h; cases h
      | some dbm =>
          rw [hs] at h
          rw [Option.some_bind] at h
          unfold get_or_create_tag_step at hs
          cases hg : Tag_get_or_create db u n with
          | none => rw [hg] at hs; cases hs
          | some p =>
              rw [hg] at hs
              rw [Option.map_some'] at hs
              obtain rfl := Option.some.inj hs
              obtain ⟨hup, hnp, hmem, hrec, hing, hmono⟩ := Tag_get_or_create_some hg
              obtain ⟨ihtags, ihing, g, ihrec, ihprops⟩ := ih h
              refine ⟨?_, ?_, ?_⟩
              · intro x hx
                exact ihtags x (hmono x hx)
              · rw [ihing]
                exact hing
              · refine ⟨g ∘ addTagFun rid p.2.id, ?_, ?_⟩
                · rw [ihrec, m2mAddTag_recipes, hrec, List.map_map]
                · intro r
                  obtain ⟨hs1, hi1, ht1⟩ := addTagFun_shape rid p.2.id r
                  obtain ⟨hs2, hi2, ht2⟩ := ihprops (addTagFun rid p.2.id r)
                  exact ⟨scalarEq_trans hs1 hs2, hi2.trans hi1,
                    fun x hx => ht2 x (ht1 x hx)⟩

/-- Each name processed by `_get_or_create_tags` ends with a tag row of
the requesting user carrying that name, associated with the target
recipe. -/
theorem goc_tags_assoc {u rid : Nat} :
    ∀ {names : List String} {db db2 : DB},
    _get_or_create_tags db u names rid = some db2 →
    ∀ n ∈ names, ∃ t ∈ db2.tags, t.user = u ∧ t.name = n ∧
      ∀ r ∈ db2.recipes, r.id = rid → t.id ∈ r.tags := by
  intro names
  induction names with
  | nil =>
      intro db db2 _ n hn
      cases hn
  | cons m rest ih =>
      intro db db2 h n hn
      unfold _get_or_create_tags at h
      cases hs : get_or_create_tag_step db u m rid with
      | none => rw [hs] at h; cases h
      | some dbm =>
          rw [hs] at h
          rw [Option.some_bind] at h
          rcases List.mem_cons.mp hn with rfl | hrest
          · unfold get_or_create_tag_step at hs
            cases hg : Tag_get_or_create db u n with
            | none => rw [hg] at hs; cases hs
            | some p =>
                rw [hg] at hs
                rw [Option.map_some'] at hs
                obtain rfl := Option.some.inj hs
                obtain ⟨hup, hnp, hmem, hrec, hing, hmono⟩ := Tag_get_or_create_some hg
                obtain ⟨ihtags, ihing, g, ihrec, ihprops⟩ := goc_tags_shape h
                refine ⟨p.2, ihtags p.2 hmem, hup, hnp, ?_⟩
                intro r hr hid
                rw [ihrec] at hr
                rw [List.mem_map] at hr
                obtain ⟨x, hx, rfl⟩ := hr
                obtain ⟨⟨hgid, _⟩, _, hgtags⟩ := ihprops x
                rw [m2mAddTag_recipes] at hx
                rw [List.mem_map] at hx
                obtain ⟨y, hy, rfl⟩ := hx
                obtain ⟨⟨haid, _⟩, _, _⟩ := addTagFun_shape rid p.2.id y
                have hyid : y.id = rid := by
                  rw [← haid, ← hgid]
                  exact hid
                exact hgtags _ (addTagFun_assoc rid p.2.id y hyid)
          · exact ih h n hrest

/-- Mirror of `goc_tags_shape` for the ingredient loop: here the tag
table and every recipe's tag associations are preserved exactly. -/
theorem goc_ingredient_shape {u rid : Nat} :
    ∀ {names : List String} {db db2 : DB},
    _get_or_create_ingredient db u names rid = some db2 →
    (∀ x ∈ db.ingredients, x ∈ db2.ingredients) ∧ db2.tags = db.tags ∧
      ∃ g : Recipe → Recipe, db2.recipes = db.recipes.map g ∧
        ∀ r, scalarEq r (g r) ∧ (g r).tags = r.tags ∧
          ∀ x ∈ r.ingredient, x ∈ (g r).ingredient := by
  intro names
  induction names with
  | nil =>
      intro db db2 h
      obtain rfl := Option.some.inj h
      refine ⟨fun x hx => hx, rfl, id, (List.map_id _).symm, ?_⟩
      exact fun r => ⟨scalarEq_refl r, rfl, fun x hx => hx⟩
  | cons n rest ih =>
      intro db db2 h
      unfold _get_or_create_ingredient at h
      cases hs : get_or_create_ingredient_step db u n rid with
      | none => rw [hs] at h; cases h
      | some dbm =>
          rw [hs] at h
          rw [Option.some_bind] at h
          unfold get_or_create_ingredient_step at hs
          cases hg : Ingredient_get_or_create db u n with
          | none => rw [hg] at hs; cases hs
          | some p =>
              rw [hg] at hs
              rw [Option.map_some'] at hs
              obtain rfl := Option.some.inj hs
              obtain ⟨hup, hnp, hmem, hrec, htag, hmono⟩ := Ingredient_get_or_create_some hg
              obtain ⟨ihing, ihtags, g, ihrec, ihprops⟩ := ih h
              refine ⟨?_, ?_, ?_⟩
              · intro x hx
                exact ihing x (hmono x hx)
              · rw [ihtags]
                exact htag
              · refine ⟨g ∘ addIngredientFun rid p.2.id, ?_, ?_⟩
                · rw [ihrec, m2mAddIngredient_recipes, hrec, List.map_map]
                · intro r
                  obtain ⟨hs1, ht1, hi1⟩ := addIngredientFun_shape rid p.2.id r
                  obtain ⟨hs2, ht2, hi2⟩ := ihprops (addIngredientFun rid p.2.id r)
                  exact ⟨scalarEq_trans hs1 hs2, ht2.trans ht1,
                    fun x hx => hi2 x (hi1 x hx)⟩

/-- Mirror of `goc_tags_assoc` for the ingredient loop. -/
theorem goc_ingredient_assoc {u rid : Nat} :
    ∀ {names : List String} {db db2 : DB},
    _get_or_create_ingredient db u names rid = some db2 →
    ∀ n ∈ names, ∃ i ∈ db2.ingredients, i.user = u ∧ i.name = n ∧
      ∀ r ∈ db2.recipes, r.id = rid → i.id ∈ r.ingredient := by
  intro names
  induction names with
  | nil =>
      intro db db2 _ n hn
      cases hn
  | cons m rest ih =>
      intro db db2 h n hn
      unfold _get_or_create_ingredient at h
      cases hs : get_or_create_ingredient_step db u m rid with
      | none => rw [hs] at h; cases h
      | some dbm =>
          rw [hs] at h
          rw [Option.some_bind] at h
          rcases List.mem_cons.mp hn with rfl | hrest
          · unfold get_or_create_ingredient_step at hs
            cases hg : Ingredient_get_or_create db u n with
            | none => rw [hg] at hs; cases hs
            | some p =>
                rw [hg] at hs
                rw [Option.map_some'] at hs
                obtain rfl := Option.some.inj hs
                obtain ⟨hup, hnp, hmem, hrec, htag, hmono⟩ := Ingredient_get_or_create_some hg
                obtain ⟨ihing, ihtags, g, ihrec, ihprops⟩ := goc_ingredient_shape h
                refine ⟨p.2, ihing p.2 hmem, hup, hnp, ?_⟩
                intro r hr hid
                rw [ihrec] at hr
                rw [List.mem_map] at hr
                obtain ⟨x, hx, rfl⟩ := hr
                obtain ⟨⟨hgid, _⟩, _, hging⟩ := ihprops x
                rw [m2mAddIngredient_recipes] at hx
                rw [List.mem_map] at hx
                obtain ⟨y, hy, rfl⟩ := hx
                obtain ⟨⟨haid, _⟩, _, _⟩ := addIngredientFun_shape rid p.2.id y
                have hyid : y.id = rid := by
                  rw [← haid, ← hgid]
                  exact hid
                exact hging _ (addIngredientFun_assoc rid p.2.id y hyid)
          · exact ih h n hrest

/-- Every recipe row the `m2mAddTag` write leaves with the target id is
associated to the added tag. -/
theorem m2mAddTag_assoc_all (db : DB) (rid tid : Nat) :
    ∀ r ∈ (m2mAddTag db rid tid).recipes, r.id = rid → tid ∈ r.tags := by
  intro r hr hid
  rw [m2mAddTag_recipes, List.mem_map] at hr
  obtain ⟨y, hy, rfl⟩ := hr
  obtain ⟨⟨haid, _⟩, _, _⟩ := addTagFun_shape rid tid y
  rw [haid] at hid
  exact addTagFun_assoc rid tid y hid

/-- Mirror of `m2mAddTag_assoc_all` for ingredients. -/
theorem m2mAddIngredient_assoc_all (db : DB) (rid iid : Nat) :
    ∀ r ∈ (m2mAddIngredient db rid iid).recipes, r.id = rid → iid ∈ r.ingredient := by
  intro r hr hid
  rw [m2mAddIngredient_recipes, List.mem_map] at hr
  obtain ⟨y, hy, rfl⟩ := hr
  obtain ⟨⟨haid, _⟩, _, _⟩ := addIngredientFun_shape rid iid y
  rw [haid] at hid
  exact addIngredientFun_assoc rid iid y hid

/-! ### The claims -/

/-- Claim C1: resources owned by a user A are invisible to every other
authenticated user B — they never appear in B's list responses, and B's
retrieve, update and delete requests naming their ids answer 404 (the
lookup itself fails; no forbidden branch exists), because every queryset
is filtered to rows whose user is the requester.  Id-uniqueness of each
table (the primary-key property) is assumed. -/
theorem claim_C1 (db : DB) (A B : Nat) (hAB : A ≠ B)
    (hrinj : ∀ r1 ∈ db.recipes, ∀ r2 ∈ db.recipes, r1.id = r2.id → r1 = r2)
    (htinj : ∀ t1 ∈ db.tags, ∀ t2 ∈ db.tags, t1.id = t2.id → t1 = t2)
    (hiinj : ∀ i1 ∈ db.ingredients, ∀ i2 ∈ db.ingredients, i1.id = i2.id → i1 = i2) :
    (∀ r ∈ db.recipes, r.user = A →
      (∀ tp ip l, recipe_get_queryset db B tp ip = some l → r ∉ l) ∧
      recipe_retrieve db B r.id = none ∧
      (∀ vd, recipe_update_endpoint db B r.id vd = none) ∧
      recipe_destroy db B r.id = none) ∧
    (∀ t ∈ db.tags, t.user = A →
      (∀ pa, t ∉ tag_get_queryset db B pa) ∧ tag_get_object db B t.id = none ∧
      tag_destroy db B t.id = none) ∧
    (∀ i ∈ db.ingredients, i.user = A →
      (∀ pa, i ∉ ingredient_get_queryset db B pa) ∧
      ingredient_get_object db B i.id = none ∧
      ingredient_destroy db B i.id = none) := by
  have hrecipe_obj : ∀ r ∈ db.recipes, r.user = A → recipe_get_object db B r.id = none := by
    intro r hr hA
    unfold recipe_get_object
    rw [recipe_get_queryset_no_params, Option.some_bind, List.find?_eq_none]
    intro x hx hbeq
    obtain ⟨hxdb, hxuser⟩ := mem_recipeScope.mp hx
    have hxid : x.id = r.id := beq_iff_eq.mp hbeq
    have hxr : x = r := hrinj x hxdb r hr hxid
    rw [hxr, hA] at hxuser
    exact hAB hxuser
  have htag_obj : ∀ t ∈ db.tags, t.user = A → tag_get_object db B t.id = none := by
    intro t ht hA
    unfold tag_get_object
    rw [List.find?_eq_none]
    intro x hx hbeq
    obtain ⟨hxdb, hxuser⟩ := mem_tag_get_queryset.mp hx
    have hxt : x = t := htinj x hxdb t ht (beq_iff_eq.mp hbeq)
    rw [hxt, hA] at hxuser
    exact hAB hxuser
  have hing_obj : ∀ i ∈ db.ingredients, i.user = A →
      ingredient_get_object db B i.id = none := by
    intro i hi hA
    unfold ingredient_get_object
    rw [List.find?_eq_none]
    intro x hx hbeq
    obtain ⟨hxdb, hxuser⟩ := mem_ingredient_get_queryset.mp hx
    have hxi : x = i := hiinj x hxdb i hi (beq_iff_eq.mp hbeq)
    rw [hxi, hA] at hxuser
    exact hAB hxuser
  refine ⟨?_, ?_, ?_⟩
  · intro r hr hA
    refine ⟨?_, hrecipe_obj r hr hA, ?_, ?_⟩
    · intro tp ip l hl hmem
      have hB := recipe_list_user hl r hmem
      exact hAB (hA.symm.trans hB)
    · intro vd
      unfold recipe_update_endpoint
      rw [hrecipe_obj r hr hA]
      rfl
    · unfold recipe_destroy
      rw [hrecipe_obj r hr hA]
      rfl
  · intro t ht hA
    refine ⟨?_, htag_obj t ht hA, ?_⟩
    · intro pa hmem
      obtain ⟨_, hxuser⟩ := mem_tag_get_queryset.mp hmem
      exact hAB (hA.symm.trans hxuser)
    · unfold tag_destroy
      rw [htag_obj t ht hA]
      rfl
  · intro i hi hA
    refine ⟨?_, hing_obj i hi hA, ?_⟩
    · intro pa hmem
      obtain ⟨_, hxuser⟩ := mem_ingredient_get_queryset.mp hmem
      exact hAB (hA.symm.trans hxuser)
    · unfold ingredient_destroy
      rw [hing_obj i hi hA]
      rfl

/-- Witness for C1 on a concrete store: user 1 owns recipe 1, tag 2 and
ingredient 3; user 2 sees none of them and gets 404 on their ids. -/
theorem claim_C1_witness :
    (recipe_retrieve
        ⟨[⟨1, 1, "r", 1, 1, "", "", none, [2], [3]⟩], [⟨2, 1, "t"⟩], [⟨3, 1, "i"⟩], 4⟩
        2 1 = none) ∧
    (tag_get_object
        ⟨[⟨1, 1, "r", 1, 1, "", "", none, [2], [3]⟩], [⟨2, 1, "t"⟩], [⟨3, 1, "i"⟩], 4⟩
        2 2 = none) ∧
    (ingredient_get_object
        ⟨[⟨1, 1, "r", 1, 1, "", "", none, [2], [3]⟩], [⟨2, 1, "t"⟩], [⟨3, 1, "i"⟩], 4⟩
        2 3 = none) := by
  have h := claim_C1
    ⟨[⟨1, 1, "r", 1, 1, "", "", none, [2], [3]⟩], [⟨2, 1, "t"⟩], [⟨3, 1, "i"⟩], 4⟩
    1 2 (by decide) (by decide) (by decide) (by decide)
  refine ⟨?_, ?_, ?_⟩
  · exact (h.1 ⟨1, 1, "r", 1, 1, "", "", none, [2], [3]⟩ (by decide) rfl).2.1
  · exact (h.2.1 ⟨2, 1, "t"⟩ (by decide) rfl).2.1
  · exact (h.2.2 ⟨3, 1, "i"⟩ (by decide) rfl).2.1

/-- Claim C9 (implicit): the filter parser is partial — a non-empty
`tags` (or `ingredient`) query parameter containing a piece that
`int(...)` rejects makes `_params_to_ints` raise, so the list request
ends in an uncaught-exception server error, not the structured 400
validation response. -/
theorem claim_C9 (db : DB) (u : Nat) (s : String) (piece : List Char)
    (hs : s.isEmpty = false) (hmem : piece ∈ splitOnComma s.data)
    (hbad : pythonIntChars piece = none) :
    _params_to_ints s = none ∧
    (∀ ip, recipe_list_endpoint db u (some s) ip = ListResp.serverError) ∧
    recipe_list_endpoint db u none (some s) = ListResp.serverError := by
  have hp : _params_to_ints s = none := by
    unfold _params_to_ints
    exact mapPythonInt_eq_none_of_mem hmem hbad
  refine ⟨hp, ?_, ?_⟩
  · intro ip
    unfold recipe_list_endpoint recipe_get_queryset
    simp [truthy, hs, hp]
  · unfold recipe_list_endpoint recipe_get_queryset
    simp [truthy, hs, hp]

/-- Witness for C9: `tags=abc` (and `ingredient=abc`) both end in a
server error. -/
theorem claim_C9_witness :
    "abc".isEmpty = false ∧ ['a', 'b', 'c'] ∈ splitOnComma "abc".data ∧
    pythonIntChars ['a', 'b', 'c'] = none ∧ _params_to_ints "abc" = none ∧
    recipe_list_endpoint ⟨[], [], [], 0⟩ 1 (some "abc") none = ListResp.serverError ∧
    recipe_list_endpoint ⟨[], [], [], 0⟩ 1 none (some "abc") = ListResp.serverError := by
  have h := claim_C9 ⟨[], [], [], 0⟩ 1 "abc" ['a', 'b', 'c']
    (by decide) (by decide) (by decide)
  exact ⟨by decide, by decide, by decide, h.1, h.2.1 none, h.2.2⟩

/-- Claim C5: filtering the recipe list by comma-separated tag ids and/or
ingredient ids returns exactly the caller's recipes having at least one
related tag among the given tag ids (when given) and at least one related
ingredient among the given ingredient ids (when given), each exactly once. -/
theorem claim_C5 (db : DB) (u : Nat) (s1 s2 : String) (ids1 ids2 : List Int)
    (h1 : s1.isEmpty = false) (h2 : s2.isEmpty = false)
    (hp1 : _params_to_ints s1 = some ids1) (hp2 : _params_to_ints s2 = some ids2) :
    (∃ l, recipe_get_queryset db u (some s1) (some s2) = some l ∧ l.Nodup ∧
      ∀ r, r ∈ l ↔ r ∈ db.recipes ∧ r.user = u ∧
        (∃ t : Nat, t ∈ r.tags ∧ Int.ofNat t ∈ ids1) ∧
        (∃ i : Nat, i ∈ r.ingredient ∧ Int.ofNat i ∈ ids2)) ∧
    (∃ l, recipe_get_queryset db u (some s1) none = some l ∧ l.Nodup ∧
      ∀ r, r ∈ l ↔ r ∈ db.recipes ∧ r.user = u ∧
        ∃ t : Nat, t ∈ r.tags ∧ Int.ofNat t ∈ ids1) ∧
    (∃ l, recipe_get_queryset db u none (some s2) = some l ∧ l.Nodup ∧
      ∀ r, r ∈ l ↔ r ∈ db.recipes ∧ r.user = u ∧
        ∃ i : Nat, i ∈ r.ingredient ∧ Int.ofNat i ∈ ids2) := by
  have e1 : recipe_get_queryset db u (some s1) (some s2) =
      some (recipeScope (filterIngredientIdIn (filterTagsIdIn db.recipes ids1) ids2) u) := by
    unfold recipe_get_queryset
    simp [truthy, h1, h2, hp1, hp2]
  have e2 : recipe_get_queryset db u (some s1) none =
      some (recipeScope (filterTagsIdIn db.recipes ids1) u) := by
    unfold recipe_get_queryset
    simp [truthy, h1, hp1]
  have e3 : recipe_get_queryset db u none (some s2) =
      some (recipeScope (filterIngredientIdIn db.recipes ids2) u) := by
    unfold recipe_get_queryset
    simp [truthy, h2, hp2]
  refine ⟨⟨_, e1, nodup_recipeScope _ _, ?_⟩, ⟨_, e2, nodup_recipeScope _ _, ?_⟩,
    ⟨_, e3, nodup_recipeScope _ _, ?_⟩⟩
  · intro r
    rw [mem_recipeScope, mem_filterIngredientIdIn, mem_filterTagsIdIn]
    tauto
  · intro r
    rw [mem_recipeScope, mem_filterTagsIdIn]
    tauto
  · intro r
    rw [mem_recipeScope, mem_filterIngredientIdIn]
    tauto

/-- Witness for C5 on a concrete store: user 1 filtering by
`tags=10,11` and `ingredient=20` gets exactly the recipe related to tag
10 and ingredient 20. -/
theorem claim_C5_witness :
    ∃ l, recipe_get_queryset
        ⟨[⟨1, 1, "r1", 5, 100, "", "", none, [10], [20]⟩,
          ⟨2, 1, "r2", 5, 100, "", "", none, [11], [21]⟩], [], [], 30⟩
        1 (some "10,11") (some "20") = some l ∧ l.Nodup ∧
      ∀ r, r ∈ l ↔
        r ∈ (⟨[⟨1, 1, "r1", 5, 100, "", "", none, [10], [20]⟩,
          ⟨2, 1, "r2", 5, 100, "", "", none, [11], [21]⟩], [], [], 30⟩ : DB).recipes ∧
        r.user = 1 ∧ (∃ t : Nat, t ∈ r.tags ∧ Int.ofNat t ∈ [10, 11]) ∧
        (∃ i : Nat, i ∈ r.ingredient ∧ Int.ofNat i ∈ [20]) :=
  (claim_C5
    ⟨[⟨1, 1, "r1", 5, 100, "", "", none, [10], [20]⟩,
      ⟨2, 1, "r2", 5, 100, "", "", none, [11], [21]⟩], [], [], 30⟩
    1 "10,11" "20" [10, 11] [20]
    (by decide) (by decide) (by decide) (by decide)).1

/-- Claim C4: for an embedded tag (or ingredient) given by name, the loop
body of `_get_or_create_tags` (`_get_or_create_ingredient`) reuses the
unique existing (owner, name) row — adding no row — when one exists, and
otherwise inserts exactly one new row owned by the requesting user; in
both cases the row is associated with the recipe. -/
theorem claim_C4 (db : DB) (u : Nat) (n : String) (rid : Nat) :
    (∀ t0, db.tags.filter (fun t => t.user == u && t.name == n) = [t0] →
      ∃ db2, get_or_create_tag_step db u n rid = some db2 ∧ db2.tags = db.tags ∧
        ∀ r ∈ db2.recipes, r.id = rid → t0.id ∈ r.tags) ∧
    (db.tags.filter (fun t => t.user == u && t.name == n) = [] →
      ∃ db2, get_or_create_tag_step db u n rid = some db2 ∧
        db2.tags = db.tags ++ [⟨db.nextId, u, n⟩] ∧
        ∀ r ∈ db2.recipes, r.id = rid → db.nextId ∈ r.tags) ∧
    (∀ i0, db.ingredients.filter (fun i => i.user == u && i.name == n) = [i0] →
      ∃ db2, get_or_create_ingredient_step db u n rid = some db2 ∧
        db2.ingredients = db.ingredients ∧
        ∀ r ∈ db2.recipes, r.id = rid → i0.id ∈ r.ingredient) ∧
    (db.ingredients.filter (fun i => i.user == u && i.name == n) = [] →
      ∃ db2, get_or_create_ingredient_step db u n rid = some db2 ∧
        db2.ingredients = db.ingredients ++ [⟨db.nextId, u, n⟩] ∧
        ∀ r ∈ db2.recipes, r.id = rid → db.nextId ∈ r.ingredient) := by
  refine ⟨?_, ?_, ?_, ?_⟩
  · intro t0 hf
    have hstep : get_or_create_tag_step db u n rid = some (m2mAddTag db rid t0.id) := by
      unfold get_or_create_tag_step Tag_get_or_create
      rw [hf]
      rfl
    exact ⟨m2mAddTag db rid t0.id, hstep, rfl, m2mAddTag_assoc_all db rid t0.id⟩
  · intro hf
    have hstep : get_or_create_tag_step db u n rid =
        some (m2mAddTag
          (DB.mk db.recipes (db.tags ++ [Tag.mk db.nextId u n]) db.ingredients
            (db.nextId + 1))
          rid db.nextId) := by
      unfold get_or_create_tag_step Tag_get_or_create
      rw [hf]
      rfl
    exact ⟨_, hstep, rfl, m2mAddTag_assoc_all _ rid db.nextId⟩
  · intro i0 hf
    have hstep : get_or_create_ingredient_step db u n rid =
        some (m2mAddIngredient db rid i0.id) := by
      unfold get_or_create_ingredient_step Ingredient_get_or_create
      rw [hf]
      rfl
    exact ⟨m2mAddIngredient db rid i0.id, hstep, rfl,
      m2mAddIngredient_assoc_all db rid i0.id⟩
  · intro hf
    have hstep : get_or_create_ingredient_step db u n rid =
        some (m2mAddIngredient
          (DB.mk db.recipes db.tags (db.ingredients ++ [Ingredient.mk db.nextId u n])
            (db.nextId + 1))
          rid db.nextId) := by
      unfold get_or_create_ingredient_step Ingredient_get_or_create
      rw [hf]
      rfl
    exact ⟨_, hstep, rfl, m2mAddIngredient_assoc_all _ rid db.nextId⟩

/-- Witness for C4 on a concrete store: the existing tag (1, "Indian") is
reused, and the absent ingredient (1, "Indian") is created with the fresh
id 7. -/
theorem claim_C4_witness :
    (∃ db2, get_or_create_tag_step
        ⟨[⟨1, 1, "r", 1, 1, "", "", none, [], []⟩], [⟨5, 1, "Indian"⟩], [], 7⟩
        1 "Indian" 1 = some db2 ∧
      db2.tags = (⟨[⟨1, 1, "r", 1, 1, "", "", none, [], []⟩],
        [⟨5, 1, "Indian"⟩], [], 7⟩ : DB).tags ∧
      ∀ r ∈ db2.recipes, r.id = 1 → 5 ∈ r.tags) ∧
    (∃ db2, get_or_create_ingredient_step
        ⟨[⟨1, 1, "r", 1, 1, "", "", none, [], []⟩], [⟨5, 1, "Indian"⟩], [], 7⟩
        1 "Indian" 1 = some db2 ∧
      db2.ingredients = (⟨[⟨1, 1, "r", 1, 1, "", "", none, [], []⟩],
        [⟨5, 1, "Indian"⟩], [], 7⟩ : DB).ingredients ++ [⟨7, 1, "Indian"⟩] ∧
      ∀ r ∈ db2.recipes, r.id = 1 → 7 ∈ r.ingredient) :=
  ⟨(claim_C4 ⟨[⟨1, 1, "r", 1, 1, "", "", none, [], []⟩], [⟨5, 1, "Indian"⟩], [], 7⟩
      1 "Indian" 1).1 ⟨5, 1, "Indian"⟩ (by decide),
   (claim_C4 ⟨[⟨1, 1, "r", 1, 1, "", "", none, [], []⟩], [⟨5, 1, "Indian"⟩], [], 7⟩
      1 "Indian" 1).2.2.2 (by decide)⟩

/-- Claim C2, evaluated against the code: a PATCH whose payload has no
`tags` key (only a new title) on a recipe that carries one tag
association CLEARS that association, because `update` pops `tags` with
default `[]` and its `is not None` guard then always fires.  The spec
says the associations are left untouched, so this run refutes the claim
as stated. -/
theorem claim_C2_failing :
    (RecipeSerializer_update
        ⟨[⟨1, 1, "sample recipe", 10, 599, "https://example.com/recipe.pdf", "",
          none, [2], []⟩], [⟨2, 1, "Sweet"⟩], [], 3⟩
        1 1 { emptyValidatedData with title := some "New Recipe Title" }).map
      (fun d => d.recipes.map (fun r => (r.title, r.tags))) =
    some [("New Recipe Title", [])] := by decide

/-- Claim C3, evaluated against the code: with `assigned_only=1`, user
1's tag list still contains the tag (2, "non-veg") although no recipe of
user 1 references it — `BaseRecipeAttrViewSet.get_queryset` never reads
the `assigned_only` parameter.  This refutes the claim as stated (and the
repository's own tests for this behavior). -/
theorem claim_C3_failing :
    Tag.mk 2 1 "non-veg" ∈ tag_get_queryset
      ⟨[⟨3, 1, "test", 10, 499, "", "", none, [1], []⟩],
       [⟨1, 1, "vegitable"⟩, ⟨2, 1, "non-veg"⟩], [], 4⟩
      1 (some "1") ∧
    ∀ r ∈ (⟨[⟨3, 1, "test", 10, 499, "", "", none, [1], []⟩],
       [⟨1, 1, "vegitable"⟩, ⟨2, 1, "non-veg"⟩], [], 4⟩ : DB).recipes,
      2 ∉ r.tags := by decide

/-- The new-recipe row inserted by `RecipeSerializer.create`. -/
def newRecipeRow (db : DB) (u : Nat) (cd : RecipeCreateData) : Recipe :=
  ⟨db.nextId, u, cd.title, cd.time_minutes, cd.price, cd.link, cd.description,
    none, [], []⟩

/-- The store right after `Recipe.objects.create(**validated_data)`. -/
def newRecipeDB (db : DB) (u : Nat) (cd : RecipeCreateData) : DB :=
  ⟨db.recipes ++ [newRecipeRow db u cd], db.tags, db.ingredients, db.nextId + 1⟩

/-- Unfolding of the `create` do-block into its write sequence. -/
theorem RecipeSerializer_create_eq (db : DB) (u : Nat) (cd : RecipeCreateData) :
    RecipeSerializer_create db u cd =
      (_get_or_create_tags (newRecipeDB db u cd) u (cd.tags.getD []) db.nextId).bind
        (fun db2 =>
          (_get_or_create_ingredient db2 u (cd.ingredient.getD []) db.nextId).bind
            (fun db3 => some (db3, db.nextId))) := rfl

/-- What a successful `create` commits: the recipe row plus, for each
embedded tag and ingredient name, an owned row associated to it. -/
theorem RecipeSerializer_create_success {db dbf : DB} {u rid2 : Nat}
    {cd : RecipeCreateData}
    (h : RecipeSerializer_create db u cd = some (dbf, rid2)) :
    ∃ r ∈ dbf.recipes, r.id = rid2 ∧ r.user = u ∧ r.title = cd.title ∧
      (∀ n ∈ cd.tags.getD [], ∃ t ∈ dbf.tags, t.user = u ∧ t.name = n ∧ t.id ∈ r.tags) ∧
      (∀ n ∈ cd.ingredient.getD [], ∃ i ∈ dbf.ingredients, i.user = u ∧ i.name = n ∧
        i.id ∈ r.ingredient) := by
  rw [RecipeSerializer_create_eq] at h
  cases hT : _get_or_create_tags (newRecipeDB db u cd) u (cd.tags.getD []) db.nextId with
  | none => rw [hT] at h; cases h
  | some db2 =>
      rw [hT, Option.some_bind] at h
      cases hI : _get_or_create_ingredient db2 u (cd.ingredient.getD []) db.nextId with
      | none => rw [hI] at h; cases h
      | some db3 =>
          rw [hI, Option.some_bind] at h
          rw [Option.some.injEq, Prod.mk.injEq] at h
          obtain ⟨h1, h2⟩ := h
          subst h1
          subst h2
          obtain ⟨hmonoT, hingEq, g1, hrec1, hprops1⟩ := goc_tags_shape hT
          obtain ⟨hmonoI, htagEq, g2, hrec2, hprops2⟩ := goc_ingredient_shape hI
          have hassocT := goc_tags_assoc hT
          have hassocI := goc_ingredient_assoc hI
          have hr0mem : newRecipeRow db u cd ∈ (newRecipeDB db u cd).recipes :=
            List.mem_append_right _ (List.mem_singleton.mpr rfl)
          have hg1mem : g1 (newRecipeRow db u cd) ∈ db2.recipes := by
            rw [hrec1, List.mem_map]
            exact ⟨newRecipeRow db u cd, hr0mem, rfl⟩
          have hg2mem : g2 (g1 (newRecipeRow db u cd)) ∈ db3.recipes := by
            rw [hrec2, List.mem_map]
            exact ⟨g1 (newRecipeRow db u cd), hg1mem, rfl⟩
          have hg1id : (g1 (newRecipeRow db u cd)).id = db.nextId :=
            (hprops1 (newRecipeRow db u cd)).1.1
          have hg2id : (g2 (g1 (newRecipeRow db u cd))).id = db.nextId :=
            ((hprops2 (g1 (newRecipeRow db u cd))).1.1).trans hg1id
          refine ⟨g2 (g1 (newRecipeRow db u cd)), hg2mem, hg2id, ?_, ?_, ?_, ?_⟩
          · exact ((hprops2 _).1.2.1).trans ((hprops1 _).1.2.1)
          · exact ((hprops2 _).1.2.2.1).trans ((hprops1 _).1.2.2.1)
          · intro n hn
            obtain ⟨t, htmem, htu, htn, htassoc⟩ := hassocT n hn
            refine ⟨t, ?_, htu, htn, ?_⟩
            · rw [htagEq]
              exact htmem
            · rw [(hprops2 (g1 (newRecipeRow db u cd))).2.1]
              exact htassoc _ hg1mem hg1id
          · intro n hn
            obtain ⟨i, himem, hiu, hin, hiassoc⟩ := hassocI n hn
            exact ⟨i, himem, hiu, hin, hiassoc _ hg2mem hg2id⟩

/-- Claim C6 (spec-modelled transaction boundary): a recipe create or
update run inside the storage transaction either commits the recipe and
all its tag/ingredient rows and associations, or — when any write in the
sequence raises — leaves the store exactly as before. -/
theorem claim_C6 (db : DB) (u rid : Nat) (cd : RecipeCreateData)
    (vd : RecipeValidatedData) :
    (∀ dbf res, run_in_transaction db (fun d => RecipeSerializer_create d u cd) =
        (dbf, res) →
      (res = none → dbf = db) ∧
      (∀ rid2, res = some rid2 →
        ∃ r ∈ dbf.recipes, r.id = rid2 ∧ r.user = u ∧ r.title = cd.title ∧
          (∀ n ∈ cd.tags.getD [], ∃ t ∈ dbf.tags, t.user = u ∧ t.name = n ∧
            t.id ∈ r.tags) ∧
          (∀ n ∈ cd.ingredient.getD [], ∃ i ∈ dbf.ingredients, i.user = u ∧
            i.name = n ∧ i.id ∈ r.ingredient))) ∧
    (∀ dbf res, run_in_transaction db
        (fun d => (RecipeSerializer_update d rid u vd).map (fun x => (x, ()))) =
        (dbf, res) →
      (res = none → dbf = db) ∧
      (res = some () → RecipeSerializer_update db rid u vd = some dbf)) := by
  constructor
  · intro dbf res hrun
    simp only [run_in_transaction] at hrun
    cases hc : RecipeSerializer_create db u cd with
    | none =>
        rw [hc] at hrun
        have hrun2 : ((db, none) : DB × Option Nat) = (dbf, res) := hrun
        rw [Prod.mk.injEq] at hrun2
        obtain ⟨h1, h2⟩ := hrun2
        subst h1
        subst h2
        exact ⟨fun _ => rfl, fun rid2 hco => by cases hco⟩
    | some p =>
        rw [hc] at hrun
        have hrun2 : ((p.1, some p.2) : DB × Option Nat) = (dbf, res) := hrun
        rw [Prod.mk.injEq] at hrun2
        obtain ⟨h1, h2⟩ := hrun2
        subst h1
        subst h2
        refine ⟨(fun hco => by cases hco), ?_⟩
        intro rid2 hco
        obtain rfl := Option.some.inj hco
        exact RecipeSerializer_create_success hc
  · intro dbf res hrun
    simp only [run_in_transaction] at hrun
    cases hcu : RecipeSerializer_update db rid u vd with
    | none =>
        rw [hcu] at hrun
        have hrun2 : ((db, none) : DB × Option Unit) = (dbf, res) := hrun
        rw [Prod.mk.injEq] at hrun2
        obtain ⟨h1, h2⟩ := hrun2
        subst h1
        subst h2
        exact ⟨fun _ => rfl, fun hco => by cases hco⟩
    | some d2 =>
        rw [hcu] at hrun
        have hrun2 : ((d2, some ()) : DB × Option Unit) = (dbf, res) := hrun
        rw [Prod.mk.injEq] at hrun2
        obtain ⟨h1, h2⟩ := hrun2
        subst h1
        subst h2
        exact ⟨(fun hco => by cases hco), fun _ => rfl⟩

/-- Witness for C6: creating a recipe with one new tag and one new
ingredient in an empty store commits the recipe, the tag and the
ingredient rows and both associations; an update transaction on the same
store commits as a whole as well. -/
theorem claim_C6_witness :
    (run_in_transaction ⟨[], [], [], 0⟩
        (fun d => RecipeSerializer_create d 1 ⟨"t", 1, 2, "", "", some ["a"], some ["b"]⟩)).2
      = some 0 ∧
    (∃ r ∈ (run_in_transaction ⟨[], [], [], 0⟩
        (fun d => RecipeSerializer_create d 1
          ⟨"t", 1, 2, "", "", some ["a"], some ["b"]⟩)).1.recipes,
      r.id = 0 ∧ r.user = 1 ∧ r.title = "t" ∧
      (∀ n ∈ ["a"], ∃ t ∈ (run_in_transaction ⟨[], [], [], 0⟩
          (fun d => RecipeSerializer_create d 1
            ⟨"t", 1, 2, "", "", some ["a"], some ["b"]⟩)).1.tags,
        t.user = 1 ∧ t.name = n ∧ t.id ∈ r.tags) ∧
      (∀ n ∈ ["b"], ∃ i ∈ (run_in_transaction ⟨[], [], [], 0⟩
          (fun d => RecipeSerializer_create d 1
            ⟨"t", 1, 2, "", "", some ["a"], some ["b"]⟩)).1.ingredients,
        i.user = 1 ∧ i.name = n ∧ i.id ∈ r.ingredient)) ∧
    RecipeSerializer_update ⟨[], [], [], 0⟩ 0 1 emptyValidatedData =
      some ⟨[], [], [], 0⟩ := by
  refine ⟨by decide, ?_, ?_⟩
  · exact ((claim_C6 ⟨[], [], [], 0⟩ 1 0 ⟨"t", 1, 2, "", "", some ["a"], some ["b"]⟩
      emptyValidatedData).1 _ _ rfl).2 0 (by decide)
  · exact ((claim_C6 ⟨[], [], [], 0⟩ 1 0 ⟨"t", 1, 2, "", "", some ["a"], some ["b"]⟩
      emptyValidatedData).2 _ _ rfl).2 rfl

/-- Unfolding of the `update` do-block into its write sequence. -/
theorem RecipeSerializer_update_eq (db : DB) (recipeId u : Nat)
    (vd : RecipeValidatedData) :
    RecipeSerializer_update db recipeId u vd =
      (_get_or_create_tags (m2mClearTags db recipeId) u (vd.tags.getD []) recipeId).bind
        (fun db2 =>
          (_get_or_create_ingredient (m2mClearIngredient db2 recipeId) u
              (vd.ingredient.getD []) recipeId).bind
            (fun db4 => some (DB.mk (db4.recipes.map (fun r =>
                if r.id == recipeId then applySetattr r vd else r))
              db4.tags db4.ingredients db4.nextId))) := rfl

/-- Every recipe row of the new store has a row of the old store with
the same primary key and the same owner. -/
def idUserPreserved (dbOld dbNew : DB) : Prop :=
  ∀ r ∈ dbNew.recipes, ∃ r0 ∈ dbOld.recipes, r.id = r0.id ∧ r.user = r0.user

theorem idUserPreserved_trans {a b c : DB}
    (h1 : idUserPreserved a b) (h2 : idUserPreserved b c) : idUserPreserved a c := by
  intro r hr
  obtain ⟨r1, hr1, e1, e2⟩ := h2 r hr
  obtain ⟨r0, hr0, f1, f2⟩ := h1 r1 hr1
  exact ⟨r0, hr0, e1.trans f1, e2.trans f2⟩

theorem idUserPreserved_of_map {dbOld dbNew : DB} {f : Recipe → Recipe}
    (hrec : dbNew.recipes = dbOld.recipes.map f)
    (hf : ∀ r, (f r).id = r.id ∧ (f r).user = r.user) :
    idUserPreserved dbOld dbNew := by
  intro r hr
  rw [hrec, List.mem_map] at hr
  obtain ⟨x, hx, rfl⟩ := hr
  exact ⟨x, hx, (hf x).1, (hf x).2⟩

theorem m2mClearTags_recipes (db : DB) (recipeId : Nat) :
    (m2mClearTags db recipeId).recipes =
      db.recipes.map (fun r => if r.id == recipeId then { r with tags := [] } else r) := rfl

theorem m2mClearIngredient_recipes (db : DB) (recipeId : Nat) :
    (m2mClearIngredient db recipeId).recipes =
      db.recipes.map (fun r =>
        if r.id == recipeId then { r with ingredient := [] } else r) := rfl

/-- Claim C7: the `user` key of an update payload is dropped by the
serializer (it is not among `Meta.fields`), so an update request carrying
a `user` value succeeds and never changes any recipe's stored owner. -/
theorem claim_C7 (db : DB) (u rid v : Nat) (p : RecipeRawPayload)
    (hu : p.user = some v) :
    (to_internal_value p).user = none ∧
    (∀ db2, RecipeSerializer_update db rid u (to_internal_value p) = some db2 →
      idUserPreserved db db2) ∧
    (p.tags = none → p.ingredient = none →
      ∃ db2, RecipeSerializer_update db rid u (to_internal_value p) = some db2) := by
  have huser : (to_internal_value p).user = none := by
    show (if writableField "user" then p.user else none) = none
    rw [show writableField "user" = false from by decide]
    rfl
  refine ⟨huser, ?_, ?_⟩
  · intro db2 h
    rw [RecipeSerializer_update_eq] at h
    cases hT : _get_or_create_tags (m2mClearTags db rid) u
        ((to_internal_value p).tags.getD []) rid with
    | none => rw [hT] at h; cases h
    | some dbA =>
        rw [hT, Option.some_bind] at h
        cases hI : _get_or_create_ingredient (m2mClearIngredient dbA rid) u
            ((to_internal_value p).ingredient.getD []) rid with
        | none => rw [hI] at h; cases h
        | some dbB =>
            rw [hI, Option.some_bind] at h
            obtain rfl := Option.some.inj h
            have s1 : idUserPreserved db (m2mClearTags db rid) := by
              apply idUserPreserved_of_map (m2mClearTags_recipes db rid)
              intro r
              split
              · exact ⟨rfl, rfl⟩
              · exact ⟨rfl, rfl⟩
            obtain ⟨_, _, g1, hrec1, hprops1⟩ := goc_tags_shape hT
            have s2 : idUserPreserved (m2mClearTags db rid) dbA :=
              idUserPreserved_of_map hrec1
                (fun r => ⟨(hprops1 r).1.1, (hprops1 r).1.2.1⟩)
            have s3 : idUserPreserved dbA (m2mClearIngredient dbA rid) := by
              apply idUserPreserved_of_map (m2mClearIngredient_recipes dbA rid)
              intro r
              split
              · exact ⟨rfl, rfl⟩
              · exact ⟨rfl, rfl⟩
            obtain ⟨_, _, g2, hrec2, hprops2⟩ := goc_ingredient_shape hI
            have s4 : idUserPreserved (m2mClearIngredient dbA rid) dbB :=
              idUserPreserved_of_map hrec2
                (fun r => ⟨(hprops2 r).1.1, (hprops2 r).1.2.1⟩)
            have s5 : idUserPreserved dbB
                (DB.mk (dbB.recipes.map (fun r =>
                    if r.id == rid then applySetattr r (to_internal_value p) else r))
                  dbB.tags dbB.ingredients dbB.nextId) := by
              apply idUserPreserved_of_map rfl
              intro r
              split
              · refine ⟨rfl, ?_⟩
                show ((to_internal_value p).user.getD r.user) = r.user
                rw [huser]
                rfl
              · exact ⟨rfl, rfl⟩
            exact idUserPreserved_trans s1 (idUserPreserved_trans s2
              (idUserPreserved_trans s3 (idUserPreserved_trans s4 s5)))
  · intro hpt hpi
    have htags : (to_internal_value p).tags = none := by
      show (if writableField "tags" then p.tags else none) = none
      rw [show writableField "tags" = true from by decide]
      exact hpt
    have hing : (to_internal_value p).ingredient = none := by
      show (if writableField "ingredient" then p.ingredient else none) = none
      rw [show writableField "ingredient" = true from by decide]
      exact hpi
    rw [RecipeSerializer_update_eq, htags, hing]
    exact ⟨_, rfl⟩

/-- Witness for C7: a PATCH carrying `user = 2` (and a new title) on user
1's recipe succeeds and the stored owner stays user 1. -/
theorem claim_C7_witness :
    (to_internal_value ⟨some "x", none, none, none, none, none, none, none, some 2⟩).user
      = none ∧
    (∃ db2, RecipeSerializer_update
        ⟨[⟨1, 1, "r", 1, 1, "", "", none, [], []⟩], [], [], 2⟩ 1 1
        (to_internal_value ⟨some "x", none, none, none, none, none, none, none, some 2⟩)
      = some db2) ∧
    idUserPreserved ⟨[⟨1, 1, "r", 1, 1, "", "", none, [], []⟩], [], [], 2⟩
      ⟨[⟨1, 1, "x", 1, 1, "", "", none, [], []⟩], [], [], 2⟩ := by
  have h := claim_C7 ⟨[⟨1, 1, "r", 1, 1, "", "", none, [], []⟩], [], [], 2⟩ 1 1 2
    ⟨some "x", none, none, none, none, none, none, none, some 2⟩ rfl
  exact ⟨h.1, h.2.2 rfl rfl, h.2.1 ⟨[⟨1, 1, "x", 1, 1, "", "", none, [], []⟩], [], [], 2⟩ (by decide)⟩

/-- Claim C8: an update whose payload carries `tags` (and `ingredient`)
as the empty list leaves the recipe with zero tag and ingredient
associations and raises no error; a create with empty embedded lists
yields a recipe with zero associations. -/
theorem claim_C8 (db : DB) (u rid : Nat) (vd : RecipeValidatedData)
    (cd : RecipeCreateData)
    (ht : vd.tags = some []) (hi : vd.ingredient = some [])
    (hct : cd.tags = some []) (hci : cd.ingredient = some []) :
    (∃ db2, RecipeSerializer_update db rid u vd = some db2 ∧
      ∀ r ∈ db2.recipes, r.id = rid → r.tags = [] ∧ r.ingredient = []) ∧
    (∃ db2 rid2, RecipeSerializer_create db u cd = some (db2, rid2) ∧
      ∃ r ∈ db2.recipes, r.id = rid2 ∧ r.tags = [] ∧ r.ingredient = []) := by
  constructor
  · rw [RecipeSerializer_update_eq, ht, hi]
    refine ⟨_, rfl, ?_⟩
    intro r hr hrid
    simp only [List.mem_map] at hr
    obtain ⟨x, hx, rfl⟩ := hr
    rw [m2mClearIngredient_recipes, m2mClearTags_recipes, List.map_map,
      List.mem_map] at hx
    obtain ⟨z, hz, rfl⟩ := hx
    by_cases hzid : z.id = rid
    · have hzb : (z.id == rid) = true := beq_iff_eq.mpr hzid
      simp [Function.comp, hzb, applySetattr]
    · have hzb : (z.id == rid) = false := by
        rw [beq_eq_false_iff_ne]
        exact hzid
      simp [Function.comp, hzb] at hrid
      exact absurd hrid hzid
  · rw [RecipeSerializer_create_eq, hct, hci]
    refine ⟨_, _, rfl, newRecipeRow db u cd,
      List.mem_append_right _ (List.mem_singleton.mpr rfl), rfl, rfl, rfl⟩

/-- Witness for C8: patching user 1's recipe with empty `tags` and
`ingredient` lists clears both association sets; creating with empty
lists yields none. -/
theorem claim_C8_witness :
    (∃ db2, RecipeSerializer_update
        ⟨[⟨1, 1, "r", 1, 1, "", "", none, [7], [8]⟩], [⟨7, 1, "t"⟩], [⟨8, 1, "i"⟩], 9⟩
        1 1 { emptyValidatedData with tags := some [], ingredient := some [] }
      = some db2 ∧
      ∀ r ∈ db2.recipes, r.id = 1 → r.tags = [] ∧ r.ingredient = []) ∧
    (∃ db2 rid2, RecipeSerializer_create
        ⟨[⟨1, 1, "r", 1, 1, "", "", none, [7], [8]⟩], [⟨7, 1, "t"⟩], [⟨8, 1, "i"⟩], 9⟩
        1 ⟨"t2", 1, 1, "", "", some [], some []⟩ = some (db2, rid2) ∧
      ∃ r ∈ db2.recipes, r.id = rid2 ∧ r.tags = [] ∧ r.ingredient = []) :=
  claim_C8 ⟨[⟨1, 1, "r", 1, 1, "", "", none, [7], [8]⟩], [⟨7, 1, "t"⟩], [⟨8, 1, "i"⟩], 9⟩
    1 1 { emptyValidatedData with tags := some [], ingredient := some [] }
    ⟨"t2", 1, 1, "", "", some [], some []⟩ rfl rfl rfl rfl

/-- Claim C10 (implicit): the upload-image serializer declares `image`
optional, so the owner's POST without an `image` key validates and
answers 200 with the recipe's id and its current image, not a 400
field-validation error. -/
theorem claim_C10 (db : DB) (u : Nat) (r : Recipe) (p : ImagePayload)
    (hinj : ∀ r1 ∈ db.recipes, ∀ r2 ∈ db.recipes, r1.id = r2.id → r1 = r2)
    (hr : r ∈ db.recipes) (hu : r.user = u) (hp : p.image = none) :
    RecipeImageSeriaizer_is_valid p = true ∧
    (upload_image db u r.id p).1 = UploadResp.ok r.id r.image := by
  have hvalid : RecipeImageSeriaizer_is_valid p = true := by
    simp [RecipeImageSeriaizer_is_valid, image_field_required]
  have hobj : recipe_get_object db u r.id = some r := by
    unfold recipe_get_object
    rw [recipe_get_queryset_no_params, Option.some_bind]
    apply find?_eq_some_of_unique (mem_recipeScope.mpr ⟨hr, hu⟩)
    · exact beq_self_eq_true r.id
    · intro x hx hbx
      exact hinj x (mem_recipeScope.mp hx).1 r hr (beq_iff_eq.mp hbx)
  refine ⟨hvalid, ?_⟩
  unfold upload_image
  rw [hobj]
  simp [hvalid, hp]

/-- Witness for C10: the owner posting an empty payload to
`upload_image` gets 200 with the current image back. -/
theorem claim_C10_witness :
    RecipeImageSeriaizer_is_valid ⟨none⟩ = true ∧
    (upload_image ⟨[⟨1, 1, "r", 1, 1, "", "", some "img.png", [], []⟩], [], [], 2⟩
        1 1 ⟨none⟩).1 = UploadResp.ok 1 (some "img.png") :=
  claim_C10 ⟨[⟨1, 1, "r", 1, 1, "", "", some "img.png", [], []⟩], [], [], 2⟩ 1
    ⟨1, 1, "r", 1, 1, "", "", some "img.png", [], []⟩ ⟨none⟩
    (by decide) (by decide) rfl rfl
